import Mathlib

/-!
Verification of `backtrader_plotting/bokeh/bokeh.py`.

Shallow embedding conventions:
* Python objects (data feeds, observers, indicators) are identified by a
  natural-number id.  The global `plotinfo.plotmaster` attribute is a function
  `pm : Nat → Option Nat` from object ids to the id of the configured master.
* The Python `dict` `_data_graph` is an insertion-ordered association list
  `List (Nat × List Nat)`; assignment to an existing key keeps its position,
  assignment to a fresh key appends at the end, exactly like a Python dict.
* `while` loops without a structural bound are given a `fuel` argument;
  exhausted fuel returns `none` and every theorem carries an acyclicity
  hypothesis (a decreasing measure, standing for acyclicity of the finite
  Python object graph) under which the fuel branch is unreachable.
* Timestamps (Python floats compared by `bisect`) are modelled as `Int`:
  only their ordering is ever used.
* Exception-raising functions return `Except String α`.
-/

set_option autoImplicit false

namespace BtPlot

/-- The plot directives of one data feed / observer / indicator, as used by
`Bokeh._build_graph`.  `id` is the object identity, `data` the id of the
object's associated data series (`o.data`), `hasPlotinfo` models
`hasattr(i, 'plotinfo')` for indicators.  The `plotmaster` attribute lives in
the global `pm` function, keyed by `id`. -/
structure PlotItem where
  id : Nat
  plot : Bool
  plotskip : Bool
  subplot : Bool
  hasPlotinfo : Bool
  data : Nat
  deriving DecidableEq, Repr

/-- The `while` loop of `Bokeh._resolve_plotmaster`: follow
`obj.plotinfo.plotmaster` until it is `None`.  `fuel` bounds the number of
steps; exhaustion (impossible for an acyclic finite object graph, where the
Python loop terminates) yields `none`. -/
def resolveChain (pm : Nat → Option Nat) : Nat → Nat → Option Nat
  | 0, _ => none
  | fuel + 1, obj =>
    match pm obj with
    | none => some obj
    | some m => resolveChain pm fuel m

/-- Model of `Bokeh._resolve_plotmaster`: `None` resolves to `None`, otherwise the
master chain is followed to its root. -/
def resolve_plotmaster (pm : Nat → Option Nat) (fuel : Nat) : Option Nat → Option Nat
  | none => none
  | some obj => resolveChain pm fuel obj

/-- Relation `Reaches pm a b`: object `b` lies on the plotmaster chain starting at `a`. -/
inductive Reaches (pm : Nat → Option Nat) : Nat → Nat → Prop
  | refl (a : Nat) : Reaches pm a a
  | step {a m b : Nat} : pm a = some m → Reaches pm m b → Reaches pm a b

/-- The insertion-ordered dictionary `_data_graph`. -/
abbrev Graph := List (Nat × List Nat)

/-- Membership test `k in d` on a Python dict. -/
def dictMem (g : Graph) (k : Nat) : Bool :=
  g.any (fun p => p.1 == k)

/-- Assignment `d[k] = v` on a Python dict: replace in place if the key exists, else
append a new entry at the end. -/
def dictSet : Graph → Nat → List Nat → Graph
  | [], k, v => [(k, v)]
  | p :: rest, k, v => if p.1 == k then (k, v) :: rest else p :: dictSet rest k v

/-- Append `d[k].append(x)` on a Python dict whose value is a list; a missing key
leaves the dict unchanged (the source always guards this call with a
membership test). -/
def dictApp : Graph → Nat → Nat → Graph
  | [], _, _ => []
  | p :: rest, k, x => if p.1 == k then (p.1, p.2 ++ [x]) :: rest else p :: dictApp rest k x

/-- The overlay list stored under key `k` (`[]` when the key is absent). -/
def graphList (g : Graph) (k : Nat) : List Nat :=
  match g.find? (fun p => p.1 == k) with
  | some p => p.2
  | none => []

/-- The guarded attachment used by all three loops of `_build_graph`:
`if pmaster not in self._data_graph: self._data_graph[pmaster] = []` followed
by `self._data_graph[pmaster].append(x)`. -/
def graphAdd (g : Graph) (m x : Nat) : Graph :=
  dictApp (if dictMem g m then g else dictSet g m []) m x

/-- Total number of occurrences of `x` across all overlay lists of `g`. -/
def occCount (g : Graph) (x : Nat) : Nat :=
  (g.map (fun p => p.2.count x)).sum

/-- The destination property claimed for a plottable item: it is either a key
of the graph (its own pane) appearing in no overlay list, or it appears in
overlay lists exactly once overall and is not a key. -/
def oneDest (g : Graph) (x : Nat) : Prop :=
  (dictMem g x = true ∧ occCount g x = 0) ∨ (dictMem g x = false ∧ occCount g x = 1)

instance (g : Graph) (x : Nat) : Decidable (oneDest g x) := by
  unfold oneDest; infer_instance

/-- The body of the `for d in datas` loop of `_build_graph` (volume handling
aside, which touches only the separate `_volume_graphs` list). -/
def buildStepData (pm : Nat → Option Nat) (fuel : Nat) (g : Graph) (d : PlotItem) : Graph :=
  if !d.plot then g
  else
    match resolve_plotmaster pm fuel (pm d.id) with
    | none => dictSet g d.id []
    | some m => graphAdd g m d.id

/-- The body of the `for o in obs` loop of `_build_graph`.  The resolve call
receives `o.plotinfo.plotmaster or o.data`, which is never `None`, so in the
source its result is never `None`; the `none` case below is fuel exhaustion
(the Python loop spins forever) and is unreachable under acyclicity. -/
def buildStepObs (pm : Nat → Option Nat) (fuel : Nat) (g : Graph) (o : PlotItem) : Graph :=
  if !o.plot || o.plotskip then g
  else if o.subplot then dictSet g o.id []
  else
    match resolve_plotmaster pm fuel (some ((pm o.id).getD o.data)) with
    | none => g
    | some m => graphAdd g m o.id

/-- The body of the `for i in inds` loop of `_build_graph`; as for observers,
the `none` resolve case is unreachable fuel exhaustion. -/
def buildStepInd (pm : Nat → Option Nat) (fuel : Nat) (g : Graph) (i : PlotItem) : Graph :=
  if !i.hasPlotinfo then g
  else if !i.plot || i.plotskip then g
  else if i.subplot then dictSet g i.id []
  else
    match resolve_plotmaster pm fuel (some ((pm i.id).getD i.data)) with
    | none => g
    | some m => graphAdd g m i.id

/-- Result of `Bokeh._build_graph`: the `_data_graph` dict and the
`_volume_graphs` list. -/
structure BuildResult where
  data_graph : Graph
  volume_graphs : List Nat
  deriving Repr

/-- Model of `Bokeh._build_graph`.  The source appends to `_volume_graphs` inside the
data loop; since that list is disjoint from `_data_graph` the two effects are
modelled as separate passes over `datas`. -/
def build_graph (pm : Nat → Option Nat) (fuel : Nat)
    (datas obs inds : List PlotItem) (volume voloverlay : Bool) : BuildResult :=
  let g0 := datas.foldl (buildStepData pm fuel) []
  let g1 := obs.foldl (buildStepObs pm fuel) g0
  let g2 := inds.foldl (buildStepInd pm fuel) g1
  let vols := if volume && !voloverlay then (datas.filter (fun d => d.plot)).map (fun d => d.id) else []
  ⟨g2, vols⟩

/-- The effect one loop iteration of `_build_graph` has on `_data_graph`:
nothing, a fresh own pane (`self._data_graph[item] = []`), or attachment to a
resolved master (`graphAdd`). -/
inductive Dest where
  | skip
  | ownPane
  | attach (m : Nat)
  deriving DecidableEq, Repr

/-- Whether a destination is an attachment. -/
def Dest.isAttach : Dest → Bool
  | .attach _ => true
  | _ => false

/-- Apply one destination for item `x` to the graph. -/
def applyDest (g : Graph) (x : Nat) : Dest → Graph
  | .skip => g
  | .ownPane => dictSet g x []
  | .attach m => graphAdd g m x

/-- The destination computed by the data loop of `_build_graph`. -/
def destData (pm : Nat → Option Nat) (fuel : Nat) (d : PlotItem) : Dest :=
  if !d.plot then .skip
  else
    match resolve_plotmaster pm fuel (pm d.id) with
    | none => .ownPane
    | some m => .attach m

/-- The destination computed by the observer loop of `_build_graph`. -/
def destObs (pm : Nat → Option Nat) (fuel : Nat) (o : PlotItem) : Dest :=
  if !o.plot || o.plotskip then .skip
  else if o.subplot then .ownPane
  else
    match resolve_plotmaster pm fuel (some ((pm o.id).getD o.data)) with
    | none => .skip
    | some m => .attach m

/-- The destination computed by the indicator loop of `_build_graph`. -/
def destInd (pm : Nat → Option Nat) (fuel : Nat) (i : PlotItem) : Dest :=
  if !i.hasPlotinfo then .skip
  else if !i.plot || i.plotskip then .skip
  else if i.subplot then .ownPane
  else
    match resolve_plotmaster pm fuel (some ((pm i.id).getD i.data)) with
    | none => .skip
    | some m => .attach m

/-- The sequence of (item id, destination) pairs processed by `_build_graph`,
in processing order: datas, then observers, then indicators. -/
def buildPlan (pm : Nat → Option Nat) (fuel : Nat)
    (datas obs inds : List PlotItem) : List (Nat × Dest) :=
  datas.map (fun d => (d.id, destData pm fuel d))
    ++ obs.map (fun o => (o.id, destObs pm fuel o))
    ++ inds.map (fun i => (i.id, destInd pm fuel i))

/-- Folding a destination plan over the empty graph. -/
def planFold (plan : List (Nat × Dest)) : Graph :=
  plan.foldl (fun g p => applyDest g p.1 p.2) []

/-- The ids attached to master `k` by a plan, in order. -/
def attachers (plan : List (Nat × Dest)) (k : Nat) : List Nat :=
  (plan.filter (fun p => p.2 == Dest.attach k)).map (fun p => p.1)

/-- Default entry for indexed access into a plan. -/
def planDefault : Nat × Dest := (0, Dest.skip)

/-- No item receives its own pane after another item was attached to it: the
`self._data_graph[item] = []` assignment for entry `j` would wipe the overlay
list built by an earlier attach entry `i`. -/
def noLateOwnPane (plan : List (Nat × Dest)) : Prop :=
  ∀ j, j < plan.length → ∀ i, i < j →
    ¬((plan.getD j planDefault).2 = Dest.ownPane ∧
      (plan.getD i planDefault).2 = Dest.attach (plan.getD j planDefault).1)

instance (plan : List (Nat × Dest)) : Decidable (noLateOwnPane plan) := by
  unfold noLateOwnPane; infer_instance

/-- No item that is itself attached to a master also serves as the attachment
target of another item (which would make it both a key of `_data_graph` and a
member of an overlay list). -/
def noAttachedMaster (plan : List (Nat × Dest)) : Prop :=
  ∀ i, i < plan.length → ∀ j, j < plan.length →
    ¬((plan.getD i planDefault).2.isAttach = true ∧
      (plan.getD j planDefault).2 = Dest.attach (plan.getD i planDefault).1)

instance (plan : List (Nat × Dest)) : Decidable (noAttachedMaster plan) := by
  unfold noAttachedMaster; infer_instance

/-! ### `_get_analyzer_tab`: greedy two-column balancing -/

/-- One analyzer block: the `table_header` widget followed by the `elements`
widgets, each carrying an optional height. -/
abbrev AnalyzerBlock := Option Nat × List (Option Nat)

/-- Model of `_get_column_row_count`: sum of the non-`None` heights of a column. -/
def get_column_row_count (col : List (Option Nat)) : Nat :=
  (col.filterMap id).sum

/-- The widgets contributed by one analyzer block: `[table_header] + elements`. -/
def blockWidgets (b : AnalyzerBlock) : List (Option Nat) :=
  b.1 :: b.2

/-- One iteration of the placement loop in `_get_analyzer_tab`: the block goes
to column 0 iff `col0cnt <= col1cnt`. -/
def analyzer_tab_step (cols : List (Option Nat) × List (Option Nat)) (b : AnalyzerBlock) :
    List (Option Nat) × List (Option Nat) :=
  let col0cnt := get_column_row_count cols.1
  let col1cnt := get_column_row_count cols.2
  if col0cnt ≤ col1cnt then (cols.1 ++ blockWidgets b, cols.2)
  else (cols.1, cols.2 ++ blockWidgets b)

/-- The two columns built by `_get_analyzer_tab`'s placement loop. -/
def analyzer_columns (blocks : List AnalyzerBlock) : List (Option Nat) × List (Option Nat) :=
  blocks.foldl analyzer_tab_step ([], [])

/-- Absolute difference of the two columns' cumulative row heights. -/
def heightDiff (cols : List (Option Nat) × List (Option Nat)) : Nat :=
  max (get_column_row_count cols.1) (get_column_row_count cols.2)
    - min (get_column_row_count cols.1) (get_column_row_count cols.2)

/-- The maximum total height of any block in the list. -/
def maxBlockHeight (blocks : List AnalyzerBlock) : Nat :=
  blocks.foldr (fun b m => max (get_column_row_count (blockWidgets b)) m) 0

/-! ### `_model_single`: pane ordering -/

/-- A rendered figure as seen by the layout assembler: its identity, whether
its master type is a subclass of `bt.Observer`, and its plotabove flag. -/
structure BFigure where
  id : Nat
  master_is_observer : Bool
  plotabove : Bool
  deriving DecidableEq, Repr

/-- The pane ordering computed by `_model_single` (lines building `figs`):
observers first, then the remaining panes with `plotabove`, then the rest.
Python's `x not in observers` membership test is object identity, modelled by
id equality. -/
def model_single_order (figs : List BFigure) : List BFigure :=
  let observers := figs.filter (fun x => x.master_is_observer)
  let figs1 := figs.filter (fun x => !(observers.any (fun y => y.id == x.id)))
  let aboves := figs1.filter (fun x => x.plotabove)
  let figs2 := figs1.filter (fun x => !(aboves.any (fun y => y.id == x.id)))
  observers ++ aboves ++ figs2

/-! ### `_get_start_end`: index range resolution -/

/-- Model of `bisect.bisect_left` on the slice `[lo, hi)`, as in CPython. -/
def bisectLeftAux (a : List Int) (x : Int) (lo hi : Nat) : Nat :=
  if h : lo < hi then
    let mid := (lo + hi) / 2
    if a.getD mid 0 < x then bisectLeftAux a x (mid + 1) hi
    else bisectLeftAux a x lo mid
  else lo
termination_by hi - lo
decreasing_by
  · have h1 : lo ≤ (lo + hi) / 2 := Nat.le_div_iff_mul_le (by omega) |>.mpr (by omega)
    omega
  · have h2 : (lo + hi) / 2 < hi := Nat.div_lt_iff_lt_mul (by omega) |>.mpr (by omega)
    omega

/-- Model of `bisect.bisect_left(a, x)`. -/
def bisect_left (a : List Int) (x : Int) : Nat :=
  bisectLeftAux a x 0 a.length

/-- Model of `bisect.bisect_right` on the slice `[lo, hi)`, as in CPython. -/
def bisectRightAux (a : List Int) (x : Int) (lo hi : Nat) : Nat :=
  if h : lo < hi then
    let mid := (lo + hi) / 2
    if x < a.getD mid 0 then bisectRightAux a x lo mid
    else bisectRightAux a x (mid + 1) hi
  else lo
termination_by hi - lo
decreasing_by
  · have h2 : (lo + hi) / 2 < hi := Nat.div_lt_iff_lt_mul (by omega) |>.mpr (by omega)
    omega
  · have h1 : lo ≤ (lo + hi) / 2 := Nat.le_div_iff_mul_le (by omega) |>.mpr (by omega)
    omega

/-- Model of `bisect.bisect_right(a, x)`. -/
def bisect_right (a : List Int) (x : Int) : Nat :=
  bisectRightAux a x 0 a.length

/-- A `start`/`end` argument of `_get_start_end`: either already an integer
index or a `datetime.date`, represented by its `bt.date2num` value (only its
ordering against the timestamp array is used). -/
inductive PlotBound where
  | ival (i : Int)
  | dval (d : Int)
  deriving DecidableEq, Repr

/-- Model of `Bokeh._get_start_end` over the strategy timestamp array `st_dtime`:
`None` start becomes `0`, `None` end becomes `len(st_dtime)`, dates are
resolved by `bisect_left` / `bisect_right`, and a still-negative end becomes
`len(st_dtime) + 1 + end`. -/
def get_start_end (st_dtime : List Int)
    (startArg endArg : Option PlotBound) : Int × Int :=
  let s : Int :=
    match startArg with
    | none => 0
    | some (.ival i) => i
    | some (.dval d) => (bisect_left st_dtime d : Nat)
  let e : Int :=
    match endArg with
    | none => (st_dtime.length : Int)
    | some (.ival i) => i
    | some (.dval d) => (bisect_right st_dtime d : Nat)
  let e2 := if e < 0 then (st_dtime.length : Int) + 1 + e else e
  (s, e2)

/-- The duplicated start/end resolution inlined at the top of
`Bokeh._plot_strategy` (lines 198-210), over `strategy.lines.datetime.plot()`. -/
def plot_strategy_range (st_dtime : List Int)
    (startArg endArg : Option PlotBound) : Int × Int :=
  let s : Int :=
    match startArg with
    | none => 0
    | some (.ival i) => i
    | some (.dval d) => (bisect_left st_dtime d : Nat)
  let e : Int :=
    match endArg with
    | none => (st_dtime.length : Int)
    | some (.ival i) => i
    | some (.dval d) => (bisect_right st_dtime d : Nat)
  let e2 := if e < 0 then (st_dtime.length : Int) + 1 + e else e
  (s, e2)

/-! ### `_plot_strategy`: x-axis visibility -/

/-- A figure pane with its x-axis visibility flag. -/
structure StratFigure where
  xaxis_visible : Bool
  deriving DecidableEq, Repr

/-- The x-axis configuration loop of `_plot_strategy`: when `xaxis_pos` is
`"bottom"`, pane `i` gets `visible = False if i <= len(strat_figures) else
True`; other positions leave the figures untouched. -/
def configure_xaxis (xaxis_pos : String) (figs : List StratFigure) : List StratFigure :=
  if xaxis_pos = "bottom" then
    figs.enum.map (fun p =>
      { p.2 with xaxis_visible := if p.1 ≤ figs.length then false else true })
  else figs

/-! ### `plot` / `plot_result`: dispatch and error conditions -/

/-- An object handed to `Bokeh.plot` or appearing in a `plot_result` list:
a `bt.Strategy`, a `bt.OptReturn` (with or without the `strategycls` field and
with some number of analyzers), a Python list, or anything else. -/
inductive PlotObj where
  | strat
  | optRet (hasCls : Bool) (nAnalyzers : Nat)
  | objList (l : List PlotObj)
  | other

/-- The argument of `plot_result`: possibly not a list at all. -/
inductive ResultArg where
  | notList
  | list (l : List PlotObj)

/-- The page state: the objects plotted into the current `FigurePage`
(figure construction itself is delegated to the bokeh library and abstracted
to recording the plotted object). -/
abbrev PageState := List PlotObj

/-- The `for name, a in obj.analyzers.getitems()` loop of `Bokeh.plot` for an
`OptReturn`: each iteration first checks `hasattr(obj, 'strategycls')` and
raises if it is missing. -/
def optret_loop (hasCls : Bool) : Nat → Except String Unit
  | 0 => .ok ()
  | n + 1 =>
    if hasCls = false then .error "Missing field strategycls in OptReturn"
    else optret_loop hasCls n

/-- Model of `Bokeh.plot`: rejects `numfigs > 1` and a non-`None` `use`, then
dispatches on the object type.  `_plot_strategy` and the analyzer collection
are abstracted to recording the plotted object in the page state. -/
def plot (obj : PlotObj) (numfigs : Nat) (use : Option Unit) (fp : PageState) :
    Except String PageState :=
  if numfigs > 1 then .error "numfigs must be 1"
  else if use.isSome then .error "Different backends by use not supported"
  else
    match obj with
    | .strat => .ok (fp ++ [obj])
    | .optRet hasCls n =>
      match optret_loop hasCls n with
      | .error e => .error e
      | .ok _ => .ok (fp ++ [obj])
    | .objList _ => .error "Unsupported plot source object"
    | .other => .error "Unsupported plot source object"

/-- The `for s in result: self.plot(s)` loop of `plot_result` (defaults:
`numfigs=1`, `use=None`). -/
def plot_each (l : List PlotObj) (fp : PageState) : Except String PageState :=
  match l with
  | [] => .ok fp
  | s :: rest =>
    match plot s 1 none fp with
    | .error e => .error e
    | .ok fp2 => plot_each rest fp2

/-- Model of `Bokeh.run_optresult` up to its input validation: an empty result returns,
a result whose first element is not a list raises; the served bokeh
application itself is outside the model. -/
def run_optresult (result : List PlotObj) (fp : PageState) : Except String PageState :=
  if result.length = 0 then .ok fp
  else
    match result with
    | .objList _ :: _ => .ok fp
    | _ => .error "Passes result object is no optimization result"

/-- Whether `result[0]` selects the optimization branch of `plot_result`:
`isinstance(result[0], List) and len(result[0]) > 0 and
isinstance(result[0][0], (bt.OptReturn, bt.Strategy))`. -/
def firstIsOptResult : PlotObj → Bool
  | .objList (x :: _) =>
    match x with
    | .strat => true
    | .optRet _ _ => true
    | _ => false
  | _ => false

/-- Model of `Bokeh.plot_result`: validates the result shape and dispatches.  After
plotting a list of strategies, `show()` renders the page and resets the
`FigurePage` (the rendering itself, delegated to bokeh, is outside the
model). -/
def plot_result (r : ResultArg) (fp : PageState) : Except String PageState :=
  match r with
  | .notList => .error "result has to be a list"
  | .list l =>
    match l with
    | [] => .ok fp
    | e :: rest =>
      if firstIsOptResult e then run_optresult l fp
      else
        match e with
        | .strat =>
          match plot_each (e :: rest) fp with
          | .error msg => .error msg
          | .ok _ => .ok []
        | _ => .error "Unsupported result type"

/-- Whether an `Except` result is an error. -/
def exceptIsError {α : Type} : Except String α → Bool
  | .error _ => true
  | .ok _ => false

/-- The exact condition under which `plot` raises (amended claim C6): the
`strategycls` check only fires when the `OptReturn` has at least one
analyzer. -/
def plotErrorCond (obj : PlotObj) (numfigs : Nat) (use : Option Unit) : Prop :=
  1 < numfigs ∨ use.isSome = true ∨
    (match obj with
     | .strat => False
     | .optRet hasCls n => hasCls = false ∧ 0 < n
     | .objList _ => True
     | .other => True)

/-- The exact condition under which `plot_result` raises (amended claim C6). -/
def plotResultErrorCond (r : ResultArg) : Prop :=
  match r with
  | .notList => True
  | .list [] => False
  | .list (e :: rest) =>
    if firstIsOptResult e then False
    else
      match e with
      | .strat => ∃ s ∈ e :: rest, plotErrorCond s 1 none
      | _ => True

/-- The raising condition for `plot` as written in claim C6: an `OptReturn`
lacking `strategycls` is claimed to raise unconditionally. -/
def claimed_plot_raises (obj : PlotObj) (numfigs : Nat) (use : Option Unit) : Bool :=
  decide (1 < numfigs) || use.isSome ||
    (match obj with
     | .strat => false
     | .optRet hasCls _ => !hasCls
     | .objList _ => true
     | .other => true)

/-! ## Helper lemmas: plotmaster resolution -/

theorem resolveChain_sound {pm : Nat → Option Nat} {dm : Nat → Nat}
    (hd : ∀ a b, pm a = some b → dm b < dm a) :
    ∀ fuel o, dm o < fuel →
      ∃ r, resolveChain pm fuel o = some r ∧ pm r = none ∧ Reaches pm o r := by
  intro fuel
  induction fuel with
  | zero => intro o h; omega
  | succ n ih =>
    intro o _
    cases hpm : pm o with
    | none => exact ⟨o, by simp [resolveChain, hpm], hpm, Reaches.refl o⟩
    | some m =>
      have hm : dm m < n := by
        have := hd o m hpm
        omega
      obtain ⟨r, h1, h2, h3⟩ := ih m hm
      exact ⟨r, by simp [resolveChain, hpm, h1], h2, Reaches.step hpm h3⟩

theorem reaches_root_unique {pm : Nat → Option Nat} {o r r' : Nat}
    (h : Reaches pm o r) (hr : pm r = none)
    (h' : Reaches pm o r') (hr' : pm r' = none) : r = r' := by
  induction h with
  | refl a =>
    cases h' with
    | refl => rfl
    | step hs _ => rw [hr] at hs; cases hs
  | step hs _ ih =>
    cases h' with
    | refl => rw [hr'] at hs; cases hs
    | step hs' hrest =>
      rw [hs] at hs'
      cases hs'
      exact ih hr hrest

/-! ## Helper lemmas: graph (insertion-ordered dict) operations -/

theorem graphList_nil (k : Nat) : graphList [] k = [] := rfl

theorem graphList_cons (p : Nat × List Nat) (rest : Graph) (k : Nat) :
    graphList (p :: rest) k = if p.1 = k then p.2 else graphList rest k := by
  by_cases h : p.1 = k
  · simp [graphList, List.find?, h]
  · have hb : (p.1 == k) = false := by simp [h]
    simp [graphList, List.find?, hb, h]

theorem dictMem_nil (k : Nat) : dictMem [] k = false := rfl

theorem dictMem_cons (p : Nat × List Nat) (rest : Graph) (k : Nat) :
    dictMem (p :: rest) k = if p.1 = k then true else dictMem rest k := by
  by_cases h : p.1 = k <;> simp [dictMem, h]

theorem dictSet_cons (p : Nat × List Nat) (rest : Graph) (k : Nat) (v : List Nat) :
    dictSet (p :: rest) k v = if p.1 = k then (k, v) :: rest else p :: dictSet rest k v := by
  by_cases h : p.1 = k <;> simp [dictSet, h]

theorem dictApp_cons (p : Nat × List Nat) (rest : Graph) (k x : Nat) :
    dictApp (p :: rest) k x =
      if p.1 = k then (p.1, p.2 ++ [x]) :: rest else p :: dictApp rest k x := by
  by_cases h : p.1 = k <;> simp [dictApp, h]

theorem dictMem_dictSet_self (g : Graph) (k : Nat) (v : List Nat) :
    dictMem (dictSet g k v) k = true := by
  induction g with
  | nil => simp [dictSet, dictMem]
  | cons p rest ih =>
    rw [dictSet_cons]
    by_cases h : p.1 = k
    · simp [h, dictMem_cons]
    · rw [if_neg h, dictMem_cons, if_neg h, ih]

theorem dictMem_dictSet_ne {k' k : Nat} (g : Graph) (v : List Nat) (h : k' ≠ k) :
    dictMem (dictSet g k v) k' = dictMem g k' := by
  induction g with
  | nil => simp [dictSet, dictMem, Ne.symm h]
  | cons p rest ih =>
    rw [dictSet_cons]
    by_cases hp : p.1 = k
    · rw [if_pos hp, dictMem_cons, dictMem_cons, if_neg (by omega), if_neg (by omega)]
    · rw [if_neg hp, dictMem_cons, dictMem_cons, ih]

theorem graphList_dictSet_self (g : Graph) (k : Nat) (v : List Nat) :
    graphList (dictSet g k v) k = v := by
  induction g with
  | nil => simp [dictSet, graphList]
  | cons p rest ih =>
    rw [dictSet_cons]
    by_cases h : p.1 = k
    · rw [if_pos h, graphList_cons, if_pos rfl]
    · rw [if_neg h, graphList_cons, if_neg h, ih]

theorem graphList_dictSet_ne {k' k : Nat} (g : Graph) (v : List Nat) (h : k' ≠ k) :
    graphList (dictSet g k v) k' = graphList g k' := by
  induction g with
  | nil =>
    have hb : (k == k') = false := by simp [Ne.symm h]
    simp [dictSet, graphList, List.find?, hb]
  | cons p rest ih =>
    rw [dictSet_cons]
    by_cases hp : p.1 = k
    · rw [if_pos hp, graphList_cons, graphList_cons, if_neg (by omega), if_neg (by omega)]
    · rw [if_neg hp, graphList_cons, graphList_cons, ih]

theorem graphList_not_mem {g : Graph} {k : Nat} (h : dictMem g k = false) :
    graphList g k = [] := by
  induction g with
  | nil => simp [graphList]
  | cons p rest ih =>
    rw [dictMem_cons] at h
    by_cases hp : p.1 = k
    · rw [if_pos hp] at h; cases h
    · rw [if_neg hp] at h
      rw [graphList_cons, if_neg hp, ih h]

theorem dictApp_not_mem {g : Graph} {k : Nat} (x : Nat) (h : dictMem g k = false) :
    dictApp g k x = g := by
  induction g with
  | nil => simp [dictApp]
  | cons p rest ih =>
    rw [dictMem_cons] at h
    by_cases hp : p.1 = k
    · rw [if_pos hp] at h; cases h
    · rw [if_neg hp] at h
      rw [dictApp_cons, if_neg hp, ih h]

theorem graphList_dictApp_self {g : Graph} {k : Nat} (x : Nat) (h : dictMem g k = true) :
    graphList (dictApp g k x) k = graphList g k ++ [x] := by
  induction g with
  | nil => simp [dictMem] at h
  | cons p rest ih =>
    rw [dictMem_cons] at h
    rw [dictApp_cons]
    by_cases hp : p.1 = k
    · rw [if_pos hp, graphList_cons, graphList_cons, if_pos hp, if_pos hp]
    · rw [if_neg hp] at h
      rw [if_neg hp, graphList_cons, graphList_cons, if_neg hp, if_neg hp, ih h]

theorem graphList_dictApp_ne {k' k : Nat} (g : Graph) (x : Nat) (h : k' ≠ k) :
    graphList (dictApp g k x) k' = graphList g k' := by
  induction g with
  | nil => simp [dictApp]
  | cons p rest ih =>
    rw [dictApp_cons]
    by_cases hp : p.1 = k
    · rw [if_pos hp, graphList_cons, graphList_cons, if_neg (by omega), if_neg (by omega)]
    · rw [if_neg hp, graphList_cons, graphList_cons, ih]

theorem dictMem_dictApp (g : Graph) (k x k' : Nat) :
    dictMem (dictApp g k x) k' = dictMem g k' := by
  induction g with
  | nil => simp [dictApp]
  | cons p rest ih =>
    rw [dictApp_cons]
    by_cases hp : p.1 = k
    · rw [if_pos hp, dictMem_cons, dictMem_cons]
    · rw [if_neg hp, dictMem_cons, dictMem_cons, ih]

theorem graphList_graphAdd_self (g : Graph) (m x : Nat) :
    graphList (graphAdd g m x) m = graphList g m ++ [x] := by
  unfold graphAdd
  by_cases h : dictMem g m = true
  · rw [if_pos h, graphList_dictApp_self x h]
  · have h' : dictMem g m = false := by simpa using h
    rw [if_neg (by simp [h']), graphList_dictApp_self x (dictMem_dictSet_self g m []),
      graphList_dictSet_self, graphList_not_mem h']

theorem graphList_graphAdd_ne {k m : Nat} (g : Graph) (x : Nat) (h : k ≠ m) :
    graphList (graphAdd g m x) k = graphList g k := by
  unfold graphAdd
  by_cases hm : dictMem g m = true
  · rw [if_pos hm, graphList_dictApp_ne _ _ h]
  · rw [if_neg (by simpa using hm), graphList_dictApp_ne _ _ h,
      graphList_dictSet_ne _ _ h]

theorem dictMem_graphAdd_self (g : Graph) (m x : Nat) :
    dictMem (graphAdd g m x) m = true := by
  unfold graphAdd
  by_cases hm : dictMem g m = true
  · rw [if_pos hm, dictMem_dictApp]; exact hm
  · rw [if_neg (by simpa using hm), dictMem_dictApp]
    exact dictMem_dictSet_self g m []

theorem dictMem_graphAdd_ne {k m : Nat} (g : Graph) (x : Nat) (h : k ≠ m) :
    dictMem (graphAdd g m x) k = dictMem g k := by
  unfold graphAdd
  by_cases hm : dictMem g m = true
  · rw [if_pos hm, dictMem_dictApp]
  · rw [if_neg (by simpa using hm), dictMem_dictApp, dictMem_dictSet_ne _ _ h]

theorem occCount_cons (p : Nat × List Nat) (rest : Graph) (x : Nat) :
    occCount (p :: rest) x = p.2.count x + occCount rest x := by
  simp [occCount]

theorem occCount_dictSet_empty {g : Graph} {k x : Nat} (h : x ∉ graphList g k) :
    occCount (dictSet g k []) x = occCount g x := by
  induction g with
  | nil => simp [dictSet, occCount]
  | cons p rest ih =>
    rw [graphList_cons] at h
    rw [dictSet_cons]
    by_cases hp : p.1 = k
    · rw [if_pos hp] at h
      rw [if_pos hp, occCount_cons, occCount_cons, List.count_eq_zero.mpr h]
      simp
    · rw [if_neg hp] at h
      rw [if_neg hp, occCount_cons, occCount_cons, ih h]

theorem occCount_dictApp {g : Graph} {k : Nat} (y x : Nat) (h : dictMem g k = true) :
    occCount (dictApp g k y) x = occCount g x + (if y = x then 1 else 0) := by
  induction g with
  | nil => simp [dictMem] at h
  | cons p rest ih =>
    rw [dictMem_cons] at h
    rw [dictApp_cons]
    by_cases hp : p.1 = k
    · rw [if_pos hp, occCount_cons, occCount_cons, List.count_append]
      by_cases hy : y = x <;> simp [hy, List.count_singleton] <;> omega
    · rw [if_neg hp] at h
      rw [if_neg hp, occCount_cons, occCount_cons, ih h]
      omega

theorem occCount_graphAdd (g : Graph) (m y x : Nat) :
    occCount (graphAdd g m y) x = occCount g x + (if y = x then 1 else 0) := by
  unfold graphAdd
  by_cases hm : dictMem g m = true
  · rw [if_pos hm, occCount_dictApp y x hm]
  · have hm' : dictMem g m = false := by simpa using hm
    rw [if_neg (by simp [hm']), occCount_dictApp y x (dictMem_dictSet_self g m [])]
    have : occCount (dictSet g m []) x = occCount g x :=
      occCount_dictSet_empty (by rw [graphList_not_mem hm']; simp)
    rw [this]

/-! ## Helper lemmas: the destination plan of `_build_graph` -/

theorem buildStepData_eq (pm : Nat → Option Nat) (fuel : Nat) (g : Graph) (d : PlotItem) :
    buildStepData pm fuel g d = applyDest g d.id (destData pm fuel d) := by
  cases h : d.plot
  · simp [buildStepData, destData, applyDest, h]
  · cases hr : resolve_plotmaster pm fuel (pm d.id) <;>
      simp [buildStepData, destData, applyDest, h, hr]

theorem buildStepObs_eq (pm : Nat → Option Nat) (fuel : Nat) (g : Graph) (o : PlotItem) :
    buildStepObs pm fuel g o = applyDest g o.id (destObs pm fuel o) := by
  cases h1 : (!o.plot || o.plotskip)
  · cases h2 : o.subplot
    · cases hr : resolve_plotmaster pm fuel (some ((pm o.id).getD o.data)) <;>
        simp [buildStepObs, destObs, applyDest, h1, h2, hr]
    · simp [buildStepObs, destObs, applyDest, h1, h2]
  · simp [buildStepObs, destObs, applyDest, h1]

theorem buildStepInd_eq (pm : Nat → Option Nat) (fuel : Nat) (g : Graph) (i : PlotItem) :
    buildStepInd pm fuel g i = applyDest g i.id (destInd pm fuel i) := by
  cases h0 : i.hasPlotinfo
  · simp [buildStepInd, destInd, applyDest, h0]
  · cases h1 : (!i.plot || i.plotskip)
    · cases h2 : i.subplot
      · cases hr : resolve_plotmaster pm fuel (some ((pm i.id).getD i.data)) <;>
          simp [buildStepInd, destInd, applyDest, h0, h1, h2, hr]
      · simp [buildStepInd, destInd, applyDest, h0, h1, h2]
    · simp [buildStepInd, destInd, applyDest, h0, h1]

theorem build_graph_eq_planFold (pm : Nat → Option Nat) (fuel : Nat)
    (datas obs inds : List PlotItem) (v vo : Bool) :
    (build_graph pm fuel datas obs inds v vo).data_graph =
      planFold (buildPlan pm fuel datas obs inds) := by
  have hd : buildStepData pm fuel = fun g d => applyDest g d.id (destData pm fuel d) :=
    funext fun g => funext fun d => buildStepData_eq pm fuel g d
  have ho : buildStepObs pm fuel = fun g o => applyDest g o.id (destObs pm fuel o) :=
    funext fun g => funext fun o => buildStepObs_eq pm fuel g o
  have hi : buildStepInd pm fuel = fun g i => applyDest g i.id (destInd pm fuel i) :=
    funext fun g => funext fun i => buildStepInd_eq pm fuel g i
  simp [build_graph, planFold, buildPlan, List.foldl_append, List.foldl_map, hd, ho, hi]

theorem planFold_append_one (plan : List (Nat × Dest)) (e : Nat × Dest) :
    planFold (plan ++ [e]) = applyDest (planFold plan) e.1 e.2 := by
  simp [planFold, List.foldl_append]

theorem attachers_append_one (plan : List (Nat × Dest)) (e : Nat × Dest) (k : Nat) :
    attachers (plan ++ [e]) k =
      attachers plan k ++ (if e.2 = Dest.attach k then [e.1] else []) := by
  by_cases h : e.2 = Dest.attach k <;> simp [attachers, List.filter_append, h]

theorem noLateOwnPane_of_append {plan : List (Nat × Dest)} {e : Nat × Dest}
    (h : noLateOwnPane (plan ++ [e])) : noLateOwnPane plan := by
  intro j hj i hij
  have hj' : j < (plan ++ [e]).length := by simp; omega
  have := h j hj' i hij
  rwa [List.getD_append _ _ _ _ hj, List.getD_append _ _ _ _ (by omega)] at this

theorem noLateOwnPane_last_no_attachers {plan : List (Nat × Dest)} {y : Nat}
    (h : noLateOwnPane (plan ++ [(y, Dest.ownPane)])) :
    ∀ x, (x, Dest.attach y) ∉ plan := by
  intro x hx
  obtain ⟨i, hi, hget⟩ := List.mem_iff_getElem.mp hx
  have hgd : plan.getD i planDefault = (x, Dest.attach y) := by
    rw [List.getD_eq_getElem _ _ hi, hget]
  have hlen : plan.length < (plan ++ [(y, Dest.ownPane)]).length := by simp
  have hlast : (plan ++ [(y, Dest.ownPane)]).getD plan.length planDefault = (y, Dest.ownPane) := by
    rw [List.getD_append_right _ _ _ _ (Nat.le_refl _)]
    simp
  have := h plan.length hlen i hi
  rw [hlast, List.getD_append _ _ _ _ hi, hgd] at this
  exact this ⟨rfl, rfl⟩

theorem attachers_eq_nil_of_no_mem {plan : List (Nat × Dest)} {k : Nat}
    (h : ∀ x, (x, Dest.attach k) ∉ plan) : attachers plan k = [] := by
  unfold attachers
  rw [List.map_eq_nil_iff, List.filter_eq_nil_iff]
  intro p hp
  simp only [beq_iff_eq]
  intro hpk
  exact h p.1 (by rw [← hpk, Prod.mk.eta]; exact hp)

/-- Full characterization of the graph built by folding a destination plan:
each key holds exactly the items attached to it, in order, and the keys are
exactly the own-pane items plus the attachment targets. -/
theorem planFold_spec (plan : List (Nat × Dest)) (h1 : noLateOwnPane plan) :
    (∀ k, graphList (planFold plan) k = attachers plan k)
    ∧ (∀ k, dictMem (planFold plan) k = true ↔
        ((k, Dest.ownPane) ∈ plan ∨ attachers plan k ≠ []))
    ∧ (∀ x, occCount (planFold plan) x =
        (plan.filter (fun p => p.1 == x && p.2.isAttach)).length) := by
  induction plan using List.reverseRecOn with
  | nil =>
    refine ⟨fun k => rfl, fun k => by simp [planFold, dictMem, attachers], fun x => rfl⟩
  | append_singleton plan e ih =>
    obtain ⟨ihList, ihMem, ihOcc⟩ := ih (noLateOwnPane_of_append h1)
    rw [planFold_append_one]
    obtain ⟨y, d⟩ := e
    cases d with
    | skip =>
      refine ⟨fun k => ?_, fun k => ?_, fun x => ?_⟩
      · rw [applyDest, ihList, attachers_append_one]
        simp
      · rw [applyDest, ihMem, attachers_append_one]
        simp
      · rw [applyDest, ihOcc]
        simp [Dest.isAttach]
    | ownPane =>
      have hnoatt : ∀ x, (x, Dest.attach y) ∉ plan := noLateOwnPane_last_no_attachers h1
      refine ⟨fun k => ?_, fun k => ?_, fun x => ?_⟩
      · rw [applyDest]
        by_cases hk : k = y
        · subst hk
          rw [graphList_dictSet_self, attachers_append_one]
          simp [attachers_eq_nil_of_no_mem hnoatt]
        · rw [graphList_dictSet_ne _ _ hk, ihList, attachers_append_one]
          simp
      · rw [applyDest]
        by_cases hk : k = y
        · subst hk
          rw [attachers_append_one]
          simp [dictMem_dictSet_self]
        · rw [dictMem_dictSet_ne _ _ hk, ihMem, attachers_append_one]
          simp [hk]
      · rw [applyDest, occCount_dictSet_empty, ihOcc]
        · simp [Dest.isAttach]
        · rw [ihList, attachers_eq_nil_of_no_mem hnoatt]
          simp
    | attach m =>
      refine ⟨fun k => ?_, fun k => ?_, fun x => ?_⟩
      · rw [applyDest]
        by_cases hk : k = m
        · subst hk
          rw [graphList_graphAdd_self, ihList, attachers_append_one]
          simp
        · rw [graphList_graphAdd_ne _ _ hk, ihList, attachers_append_one]
          simp [Ne.symm hk]
      · rw [applyDest]
        by_cases hk : k = m
        · subst hk
          rw [attachers_append_one]
          simp [dictMem_graphAdd_self]
        · rw [dictMem_graphAdd_ne _ _ hk, ihMem, attachers_append_one]
          simp [Ne.symm hk]
      · rw [applyDest, occCount_graphAdd, ihOcc]
        by_cases hy : y = x <;> simp [hy, Dest.isAttach]

theorem fst_nodup_unique {l : List (Nat × Dest)} (h : (l.map Prod.fst).Nodup)
    {a : Nat} {b c : Dest} (hb : (a, b) ∈ l) (hc : (a, c) ∈ l) : b = c := by
  induction l with
  | nil => cases hb
  | cons p rest ih =>
    rw [List.map_cons, List.nodup_cons] at h
    rcases List.mem_cons.mp hb with hb1 | hb1 <;> rcases List.mem_cons.mp hc with hc1 | hc1
    · rw [← hb1] at hc1
      exact (Prod.mk.injEq _ _ _ _ ▸ hc1).2.symm
    · exfalso
      apply h.1
      have hm : a ∈ rest.map Prod.fst := List.mem_map.mpr ⟨(a, c), hc1, rfl⟩
      rw [← hb1]
      exact hm
    · exfalso
      apply h.1
      have hm : a ∈ rest.map Prod.fst := List.mem_map.mpr ⟨(a, b), hb1, rfl⟩
      rw [← hc1]
      exact hm
    · exact ih h.2 hb1 hc1

theorem nodup_all_eq_singleton {α : Type} {l : List α} {e : α}
    (hn : l.Nodup) (he : e ∈ l) (hall : ∀ x ∈ l, x = e) : l = [e] := by
  cases l with
  | nil => cases he
  | cons a t =>
    have ha : a = e := hall a (List.mem_cons_self a t)
    cases t with
    | nil => rw [ha]
    | cons b t' =>
      exfalso
      have hb : b = e := hall b (List.mem_cons.mpr (Or.inr (List.mem_cons_self b t')))
      rw [List.nodup_cons] at hn
      exact hn.1 (by rw [ha, ← hb]; exact List.mem_cons_self b t')

theorem filter_attach_length_zero {plan : List (Nat × Dest)}
    (hnodup : (plan.map Prod.fst).Nodup) {a : Nat}
    (ha : (a, Dest.ownPane) ∈ plan) :
    (plan.filter (fun p => p.1 == a && p.2.isAttach)).length = 0 := by
  rw [List.length_eq_zero, List.filter_eq_nil_iff]
  intro p hp
  simp only [Bool.and_eq_true, beq_iff_eq, not_and]
  intro hpa
  have hp' : (a, p.2) ∈ plan := by rw [← hpa, Prod.mk.eta]; exact hp
  rw [fst_nodup_unique hnodup hp' ha]
  simp [Dest.isAttach]

theorem filter_attach_length_one {plan : List (Nat × Dest)}
    (hnodup : (plan.map Prod.fst).Nodup) {a m : Nat}
    (ha : (a, Dest.attach m) ∈ plan) :
    (plan.filter (fun p => p.1 == a && p.2.isAttach)).length = 1 := by
  have hmemf : (a, Dest.attach m) ∈ plan.filter (fun p => p.1 == a && p.2.isAttach) := by
    rw [List.mem_filter]
    exact ⟨ha, by simp [Dest.isAttach]⟩
  have hnf : (plan.filter (fun p => p.1 == a && p.2.isAttach)).Nodup :=
    (List.Nodup.of_map Prod.fst hnodup).filter _
  have hall : ∀ p ∈ plan.filter (fun p => p.1 == a && p.2.isAttach), p = (a, Dest.attach m) := by
    intro p hp
    rw [List.mem_filter] at hp
    obtain ⟨hpl, hpa⟩ := hp
    simp only [Bool.and_eq_true, beq_iff_eq] at hpa
    have hp' : (a, p.2) ∈ plan := by rw [← hpa.1, Prod.mk.eta]; exact hpl
    have := fst_nodup_unique hnodup hp' ha
    rw [← hpa.1, ← this]
  rw [nodup_all_eq_singleton hnf hmemf hall]
  rfl

theorem noAttachedMaster_mem {plan : List (Nat × Dest)} (h2 : noAttachedMaster plan)
    {x m y : Nat} (hx : (x, Dest.attach m) ∈ plan) (hy : (y, Dest.attach x) ∈ plan) :
    False := by
  obtain ⟨i, hi, hgi⟩ := List.mem_iff_getElem.mp hx
  obtain ⟨j, hj, hgj⟩ := List.mem_iff_getElem.mp hy
  apply h2 i hi j hj
  rw [List.getD_eq_getElem _ _ hi, List.getD_eq_getElem _ _ hj, hgi, hgj]
  exact ⟨rfl, rfl⟩

theorem attachers_mem {plan : List (Nat × Dest)} {k y : Nat}
    (h : y ∈ attachers plan k) : (y, Dest.attach k) ∈ plan := by
  unfold attachers at h
  obtain ⟨p, hp, hpy⟩ := List.mem_map.mp h
  rw [List.mem_filter] at hp
  obtain ⟨hpl, hpk⟩ := hp
  simp only [beq_iff_eq] at hpk
  rw [← hpy, ← hpk, Prod.mk.eta]
  exact hpl

theorem destData_cases {pm : Nat → Option Nat} {dm : Nat → Nat} {fuel : Nat}
    (hd : ∀ a b, pm a = some b → dm b < dm a) (hfuel : ∀ a, dm a < fuel)
    (d : PlotItem) (hplot : d.plot = true) :
    destData pm fuel d = Dest.ownPane ∨ ∃ m, destData pm fuel d = Dest.attach m := by
  unfold destData
  cases hpm : pm d.id with
  | none =>
    left
    simp [hplot, hpm, resolve_plotmaster]
  | some p0 =>
    right
    obtain ⟨r, hr, _, _⟩ := resolveChain_sound hd fuel p0 (hfuel p0)
    exact ⟨r, by simp [hplot, hpm, resolve_plotmaster, hr]⟩

theorem destObs_cases {pm : Nat → Option Nat} {dm : Nat → Nat} {fuel : Nat}
    (hd : ∀ a b, pm a = some b → dm b < dm a) (hfuel : ∀ a, dm a < fuel)
    (o : PlotItem) (hplot : o.plot = true) (hskip : o.plotskip = false) :
    destObs pm fuel o = Dest.ownPane ∨ ∃ m, destObs pm fuel o = Dest.attach m := by
  unfold destObs
  have hc : (!o.plot || o.plotskip) = false := by rw [hplot, hskip]; rfl
  cases hsub : o.subplot with
  | true => left; simp [hc, hsub]
  | false =>
    right
    obtain ⟨r, hr, _, _⟩ :=
      resolveChain_sound hd fuel ((pm o.id).getD o.data) (hfuel ((pm o.id).getD o.data))
    exact ⟨r, by simp [hc, hsub, resolve_plotmaster, hr]⟩

theorem destInd_cases {pm : Nat → Option Nat} {dm : Nat → Nat} {fuel : Nat}
    (hd : ∀ a b, pm a = some b → dm b < dm a) (hfuel : ∀ a, dm a < fuel)
    (i : PlotItem) (hinfo : i.hasPlotinfo = true)
    (hplot : i.plot = true) (hskip : i.plotskip = false) :
    destInd pm fuel i = Dest.ownPane ∨ ∃ m, destInd pm fuel i = Dest.attach m := by
  unfold destInd
  have hc : (!i.plot || i.plotskip) = false := by rw [hplot, hskip]; rfl
  cases hsub : i.subplot with
  | true => left; simp [hinfo, hc, hsub]
  | false =>
    right
    obtain ⟨r, hr, _, _⟩ :=
      resolveChain_sound hd fuel ((pm i.id).getD i.data) (hfuel ((pm i.id).getD i.data))
    exact ⟨r, by simp [hinfo, hc, hsub, resolve_plotmaster, hr]⟩

theorem destObs_ownPane_subplot {pm : Nat → Option Nat} {fuel : Nat} {o : PlotItem}
    (h : destObs pm fuel o = Dest.ownPane) : o.subplot = true := by
  unfold destObs at h
  by_cases h1 : (!o.plot || o.plotskip) = true
  · rw [if_pos h1] at h; cases h
  · rw [if_neg h1] at h
    by_cases h2 : o.subplot = true
    · exact h2
    · rw [if_neg h2] at h
      cases hr : resolve_plotmaster pm fuel (some ((pm o.id).getD o.data)) <;>
        rw [hr] at h <;> cases h

theorem destInd_ownPane_subplot {pm : Nat → Option Nat} {fuel : Nat} {i : PlotItem}
    (h : destInd pm fuel i = Dest.ownPane) : i.subplot = true := by
  unfold destInd at h
  by_cases h0 : (!i.hasPlotinfo) = true
  · rw [if_pos h0] at h; cases h
  · rw [if_neg h0] at h
    by_cases h1 : (!i.plot || i.plotskip) = true
    · rw [if_pos h1] at h; cases h
    · rw [if_neg h1] at h
      by_cases h2 : i.subplot = true
      · exact h2
      · rw [if_neg h2] at h
        cases hr : resolve_plotmaster pm fuel (some ((pm i.id).getD i.data)) <;>
          rw [hr] at h <;> cases h

theorem foldl_preserves_mem {rest : List (Nat × Dest)} {g : Graph} {m x : Nat}
    (hmem : x ∈ graphList g m)
    (hsafe : ∀ p ∈ rest, p.2 = Dest.ownPane → p.1 ≠ m) :
    x ∈ graphList (rest.foldl (fun g p => applyDest g p.1 p.2) g) m := by
  induction rest generalizing g with
  | nil => exact hmem
  | cons p t ih =>
    rw [List.foldl_cons]
    apply ih
    · cases hd : p.2 with
      | skip => rw [applyDest]; exact hmem
      | ownPane =>
        have hne : p.1 ≠ m := hsafe p (List.mem_cons_self p t) hd
        rw [applyDest, graphList_dictSet_ne _ _ (Ne.symm hne)]
        exact hmem
      | attach k =>
        rw [applyDest]
        by_cases hk : k = m
        · subst hk
          rw [graphList_graphAdd_self]
          exact List.mem_append_left _ hmem
        · rw [graphList_graphAdd_ne _ _ (fun h => hk h.symm)]
          exact hmem
    · exact fun q hq => hsafe q (List.mem_cons.mpr (Or.inr hq))

/-- C2: for every object whose plotmaster chain is acyclic (witnessed by a
decreasing measure `dm` on the finite object graph), `_resolve_plotmaster`
terminates (its value is stable for every sufficient fuel) and returns the
unique root of the chain, the first object reached whose plotmaster is
`None`; a `None` input resolves to `None`. -/
theorem resolve_plotmaster_root
    (pm : Nat → Option Nat) (dm : Nat → Nat)
    (hd : ∀ a b, pm a = some b → dm b < dm a)
    (fuel o : Nat) (hfuel : dm o < fuel) :
    resolve_plotmaster pm fuel none = none ∧
    ∃ r, resolve_plotmaster pm fuel (some o) = some r ∧ pm r = none ∧ Reaches pm o r ∧
      (∀ r', Reaches pm o r' → pm r' = none → r' = r) ∧
      (∀ fuel', dm o < fuel' → resolve_plotmaster pm fuel' (some o) = some r) := by
  refine ⟨rfl, ?_⟩
  obtain ⟨r, h1, h2, h3⟩ := resolveChain_sound hd fuel o hfuel
  refine ⟨r, h1, h2, h3, fun r' hr' hroot => reaches_root_unique hr' hroot h3 h2, ?_⟩
  intro fuel' hf'
  obtain ⟨r', h1', h2', h3'⟩ := resolveChain_sound hd fuel' o hf'
  have hrr : r' = r := reaches_root_unique h3' h2' h3 h2
  show resolveChain pm fuel' o = some r
  rw [h1', hrr]

/-- Witness for C2 at a concrete one-object chain. -/
theorem resolve_plotmaster_root_w :
    resolve_plotmaster (fun _ => none) 1 none = none :=
  (resolve_plotmaster_root (fun _ => none) (fun _ => 0)
    (fun _ _ h => Option.noConfusion h) 1 5 Nat.one_pos).1

/-- C1 counterexample: with two plottable data feeds where the first names
the second as plotmaster (so the master is processed after its overlay), the
`self._data_graph[d] = []` assignment for the master wipes the overlay list
and the first feed ends up in no destination at all; moreover the plottable
observer (id 3) overlays data 2 while also serving as the resolved master of
indicator 4, so it is simultaneously a key and an overlay member.  Both
violate the claimed partition. -/
theorem build_graph_partition_cex :
    ((⟨1, true, false, false, true, 0⟩ : PlotItem) ∈
        [(⟨1, true, false, false, true, 0⟩ : PlotItem), ⟨2, true, false, false, true, 0⟩]
      ∧ (⟨1, true, false, false, true, 0⟩ : PlotItem).plot = true
      ∧ (⟨1, true, false, false, true, 0⟩ : PlotItem).plotskip = false)
    ∧ ¬ oneDest (build_graph (fun n => if n = 1 then some 2 else if n = 4 then some 3 else none) 3
        [⟨1, true, false, false, true, 0⟩, ⟨2, true, false, false, true, 0⟩]
        [⟨3, true, false, false, true, 2⟩]
        [⟨4, true, false, false, true, 0⟩] false false).data_graph 1
    ∧ ¬ oneDest (build_graph (fun n => if n = 1 then some 2 else if n = 4 then some 3 else none) 3
        [⟨1, true, false, false, true, 0⟩, ⟨2, true, false, false, true, 0⟩]
        [⟨3, true, false, false, true, 2⟩]
        [⟨4, true, false, false, true, 0⟩] false false).data_graph 3 := by
  decide

/-- C1 (amended): provided the plotmaster chains are acyclic, all processed
ids are distinct, no item that receives its own pane is processed after an
item was attached to it, and no item that is itself attached to a master is
the attachment target of another item, `_build_graph` gives every plottable
item exactly one destination: either its own pane (a key of `_data_graph`
appearing in no overlay list) or membership, exactly once, in exactly one
master's overlay list. -/
theorem build_graph_partition
    (pm : Nat → Option Nat) (dm : Nat → Nat) (fuel : Nat)
    (hd : ∀ a b, pm a = some b → dm b < dm a) (hfuel : ∀ a, dm a < fuel)
    (datas obs inds : List PlotItem) (v vo : Bool)
    (hnodup : ((buildPlan pm fuel datas obs inds).map Prod.fst).Nodup)
    (h1 : noLateOwnPane (buildPlan pm fuel datas obs inds))
    (h2 : noAttachedMaster (buildPlan pm fuel datas obs inds))
    (x : PlotItem)
    (hx : (x ∈ datas ∧ x.plot = true ∧ x.plotskip = false)
        ∨ (x ∈ obs ∧ x.plot = true ∧ x.plotskip = false)
        ∨ (x ∈ inds ∧ x.hasPlotinfo = true ∧ x.plot = true ∧ x.plotskip = false)) :
    oneDest (build_graph pm fuel datas obs inds v vo).data_graph x.id := by
  obtain ⟨hList, hMem, hOcc⟩ := planFold_spec (buildPlan pm fuel datas obs inds) h1
  rw [build_graph_eq_planFold]
  have hentry : ∃ dx, (x.id, dx) ∈ buildPlan pm fuel datas obs inds ∧
      (dx = Dest.ownPane ∨ ∃ m, dx = Dest.attach m) := by
    rcases hx with ⟨hmem, hplot, hskip⟩ | ⟨hmem, hplot, hskip⟩ | ⟨hmem, hinfo, hplot, hskip⟩
    · refine ⟨destData pm fuel x, ?_, destData_cases hd hfuel x hplot⟩
      exact List.mem_append_left _
        (List.mem_append_left _ (List.mem_map.mpr ⟨x, hmem, rfl⟩))
    · refine ⟨destObs pm fuel x, ?_, destObs_cases hd hfuel x hplot hskip⟩
      exact List.mem_append_left _
        (List.mem_append_right _ (List.mem_map.mpr ⟨x, hmem, rfl⟩))
    · refine ⟨destInd pm fuel x, ?_, destInd_cases hd hfuel x hinfo hplot hskip⟩
      exact List.mem_append_right _ (List.mem_map.mpr ⟨x, hmem, rfl⟩)
  obtain ⟨dx, hmementry, hcases⟩ := hentry
  unfold oneDest
  rcases hcases with hown | ⟨m, hatt⟩
  · subst hown
    left
    refine ⟨(hMem x.id).mpr (Or.inl hmementry), ?_⟩
    rw [hOcc x.id, filter_attach_length_zero hnodup hmementry]
  · subst hatt
    right
    constructor
    · cases hb : dictMem (planFold (buildPlan pm fuel datas obs inds)) x.id with
      | false => rfl
      | true =>
        exfalso
        rcases (hMem x.id).mp hb with hop | hatts
        · exact Dest.noConfusion (fst_nodup_unique hnodup hop hmementry)
        · obtain ⟨y, hy⟩ := List.exists_mem_of_ne_nil _ hatts
          exact noAttachedMaster_mem h2 hmementry (attachers_mem hy)
    · rw [hOcc x.id, filter_attach_length_one hnodup hmementry]

/-- Witness for C1 at a concrete one-feed input. -/
theorem build_graph_partition_w :
    oneDest (build_graph (fun _ => none) 1
      [⟨1, true, false, false, true, 0⟩] [] [] false false).data_graph 1 :=
  build_graph_partition (fun _ => none) (fun _ => 0) 1
    (fun _ _ h => Option.noConfusion h) (fun _ => Nat.one_pos)
    [⟨1, true, false, false, true, 0⟩] [] [] false false
    (by decide) (by decide) (by decide)
    ⟨1, true, false, false, true, 0⟩
    (Or.inl ⟨by decide, rfl, rfl⟩)

/-- C7 counterexample: the claim as stated is false.  Data 1's plotmaster
chain ends at indicator 3, so the plotted observer 2 (subplot false,
plotmaster None, `o.data` = 1) is attached to the overlay list of its
resolved master 3 — but indicator 3 is itself plotted with subplot True, and
its own later iteration executes `self._data_graph[i] = []`, wiping the
attachment: after `_build_graph` the observer is in no overlay list of its
resolved master.  The conjuncts record that the observer is a claim instance
(its plotmaster is None and the chain from `o.data` resolves to 3). -/
theorem observer_default_master_cex :
    (fun n => if n = 1 then some 3 else (none : Option Nat)) 2 = none
    ∧ resolveChain (fun n => if n = 1 then some 3 else none) 3 1 = some 3
    ∧ ((2 : Nat) ∈ graphList (build_graph (fun n => if n = 1 then some 3 else none) 3
        [⟨1, true, false, false, true, 0⟩]
        [⟨2, true, false, false, true, 1⟩]
        [⟨3, true, false, true, true, 0⟩] false false).data_graph 3 → False) := by
  decide

/-- C7 (amended): a plotted observer (plot true, plotskip false) with subplot
false and no explicit plotmaster is attached by `_build_graph` to the overlay
list of the resolved plot-master `m` of its associated data series `o.data`,
and the attachment persists into the built graph — provided the chain from
`o.data` resolves (it does for any acyclic chain, by C2) and no subplot
observer or indicator is the master `m` itself, whose own-pane assignment
`self._data_graph[m] = []` would reset the master's overlay list, as the
counterexample shows. -/
theorem observer_default_master
    (pm : Nat → Option Nat) (fuel : Nat)
    (datas obs inds : List PlotItem) (v vo : Bool)
    (o : PlotItem) (ho : o ∈ obs)
    (hplot : o.plot = true) (hskip : o.plotskip = false) (hsub : o.subplot = false)
    (hpm : pm o.id = none)
    (m : Nat) (hm : resolveChain pm fuel o.data = some m)
    (hobs : ∀ o' ∈ obs, o'.subplot = true → o'.id ≠ m)
    (hinds : ∀ i ∈ inds, i.subplot = true → i.id ≠ m) :
    o.id ∈ graphList (build_graph pm fuel datas obs inds v vo).data_graph m := by
  have hdest : destObs pm fuel o = Dest.attach m := by
    unfold destObs
    have hc : (!o.plot || o.plotskip) = false := by rw [hplot, hskip]; rfl
    simp [hc, hsub, hpm, resolve_plotmaster, hm]
  obtain ⟨s, t, rfl⟩ := List.append_of_mem ho
  rw [build_graph_eq_planFold]
  unfold buildPlan planFold
  rw [List.map_append, List.map_cons, List.foldl_append, List.foldl_append,
    List.foldl_append, List.foldl_cons, hdest]
  apply foldl_preserves_mem
  · apply foldl_preserves_mem
    · rw [applyDest, graphList_graphAdd_self]
      exact List.mem_append_right _ (List.mem_singleton.mpr rfl)
    · intro p hp hpown
      obtain ⟨o', ho', rfl⟩ := List.mem_map.mp hp
      exact hobs o' (List.mem_append_right _ (List.mem_cons.mpr (Or.inr ho')))
        (destObs_ownPane_subplot hpown)
  · intro p hp hpown
    obtain ⟨i, hi, rfl⟩ := List.mem_map.mp hp
    exact hinds i hi (destInd_ownPane_subplot hpown)

/-- Witness for C7 at a concrete data feed + observer input. -/
theorem observer_default_master_w :
    (2 : Nat) ∈ graphList (build_graph (fun _ => none) 1
      [⟨1, true, false, false, true, 0⟩] [⟨2, true, false, false, true, 1⟩] []
      false false).data_graph 1 :=
  observer_default_master (fun _ => none) 1
    [⟨1, true, false, false, true, 0⟩] [⟨2, true, false, false, true, 1⟩] [] false false
    ⟨2, true, false, false, true, 1⟩ (by decide) rfl rfl rfl rfl
    1 rfl (by decide) (by decide)

/-! ## Helper lemmas: analyzer column balancing -/

theorem get_column_row_count_append (c b : List (Option Nat)) :
    get_column_row_count (c ++ b) = get_column_row_count c + get_column_row_count b := by
  simp [get_column_row_count, List.filterMap_append]

theorem analyzer_balance_aux (blocks : List AnalyzerBlock) :
    ∀ cols M, heightDiff cols ≤ M →
      heightDiff (blocks.foldl analyzer_tab_step cols) ≤ max M (maxBlockHeight blocks) := by
  induction blocks with
  | nil =>
    intro cols M h
    rw [List.foldl_nil]
    exact le_trans h (le_max_left _ _)
  | cons b rest ih =>
    intro cols M h
    rw [List.foldl_cons]
    have hstep : heightDiff (analyzer_tab_step cols b) ≤
        max M (get_column_row_count (blockWidgets b)) := by
      unfold heightDiff at h ⊢
      unfold analyzer_tab_step
      by_cases hle : get_column_row_count cols.1 ≤ get_column_row_count cols.2
      · rw [if_pos hle]
        simp only [get_column_row_count_append]
        omega
      · rw [if_neg hle]
        simp only [get_column_row_count_append]
        omega
    have hrest := ih _ _ hstep
    have hm : maxBlockHeight (b :: rest) =
        max (get_column_row_count (blockWidgets b)) (maxBlockHeight rest) := by
      simp [maxBlockHeight]
    rw [hm]
    exact le_trans hrest (by omega)

/-- C3: the placement loop of `_get_analyzer_tab` puts each analyzer block
into the column whose cumulative row height is currently smaller (ties going
to the first column), and after every placement the two columns' cumulative
heights differ by at most the maximum block height placed so far. -/
theorem analyzer_columns_balanced (blocks : List AnalyzerBlock) (k : Nat) :
    (∀ b, blocks[k]? = some b →
      analyzer_columns (blocks.take (k + 1)) =
        (if get_column_row_count (analyzer_columns (blocks.take k)).1 ≤
            get_column_row_count (analyzer_columns (blocks.take k)).2
         then ((analyzer_columns (blocks.take k)).1 ++ blockWidgets b,
               (analyzer_columns (blocks.take k)).2)
         else ((analyzer_columns (blocks.take k)).1,
               (analyzer_columns (blocks.take k)).2 ++ blockWidgets b)))
    ∧ heightDiff (analyzer_columns (blocks.take k)) ≤ maxBlockHeight (blocks.take k) := by
  constructor
  · intro b hb
    have ht : blocks.take (k + 1) = blocks.take k ++ [b] := by
      rw [List.take_succ, hb]
      rfl
    rw [ht]
    unfold analyzer_columns
    rw [List.foldl_append, List.foldl_cons, List.foldl_nil]
    rfl
  · have h0 : heightDiff (([], []) : List (Option Nat) × List (Option Nat)) ≤ 0 := by
      simp [heightDiff, get_column_row_count]
    have := analyzer_balance_aux (blocks.take k) ([], []) 0 h0
    unfold analyzer_columns
    omega

/-- Witness for C3 at a concrete two-block input. -/
theorem analyzer_columns_balanced_w :
    analyzer_columns ([((some 2 : Option Nat), [some 1]), (none, [some 5])].take 1)
      = ([some 2, some 1], []) :=
  ((analyzer_columns_balanced [((some 2 : Option Nat), [some 1]), (none, [some 5])] 0).1
      (some 2, [some 1]) rfl).trans (by decide)

/-! ## Helper lemmas: `_model_single` ordering -/

theorem filter_mem_any {l : List BFigure} (hnodup : (l.map BFigure.id).Nodup)
    (p : BFigure → Bool) {x : BFigure} (hx : x ∈ l) :
    (l.filter p).any (fun y => y.id == x.id) = p x := by
  cases hp : p x
  · rw [List.any_eq_false]
    intro y hy
    rw [List.mem_filter] at hy
    simp only [beq_iff_eq]
    intro hid
    have hyx : y = x := List.inj_on_of_nodup_map hnodup hy.1 hx hid
    rw [hyx, hp] at hy
    cases hy.2
  · rw [List.any_eq_true]
    exact ⟨x, List.mem_filter.mpr ⟨hx, hp⟩, by simp⟩

/-- C4: in "single" plot mode the chart column orders the panes as all
observer-master panes first, then the remaining panes with the plotabove
flag, then all other panes, preserving the page order inside each group
(figure identities are assumed distinct, as they are for the distinct Python
figure objects of one page). -/
theorem model_single_order_groups (figs : List BFigure)
    (h : (figs.map BFigure.id).Nodup) :
    model_single_order figs =
      figs.filter (fun x => x.master_is_observer)
        ++ figs.filter (fun x => !x.master_is_observer && x.plotabove)
        ++ figs.filter (fun x => !x.master_is_observer && !x.plotabove) := by
  simp only [model_single_order]
  have h1 : figs.filter
        (fun x => !((figs.filter (fun y => y.master_is_observer)).any (fun y => y.id == x.id)))
      = figs.filter (fun x => !x.master_is_observer) :=
    List.filter_congr (fun x hx => by rw [filter_mem_any h _ hx])
  have hnodup1 : ((figs.filter (fun x => !x.master_is_observer)).map BFigure.id).Nodup :=
    h.sublist (List.Sublist.map _ (List.filter_sublist _))
  have h2 : (figs.filter (fun x => !x.master_is_observer)).filter
        (fun x => !(((figs.filter (fun x => !x.master_is_observer)).filter
            (fun x => x.plotabove)).any (fun y => y.id == x.id)))
      = (figs.filter (fun x => !x.master_is_observer)).filter (fun x => !x.plotabove) :=
    List.filter_congr (fun x hx => by rw [filter_mem_any hnodup1 _ hx])
  rw [h1, h2]
  simp only [List.filter_filter]
  have e1 : figs.filter (fun a => a.plotabove && !a.master_is_observer)
      = figs.filter (fun x => !x.master_is_observer && x.plotabove) :=
    List.filter_congr (fun x _ => Bool.and_comm _ _)
  have e2 : figs.filter (fun a => !a.plotabove && !a.master_is_observer)
      = figs.filter (fun x => !x.master_is_observer && !x.plotabove) :=
    List.filter_congr (fun x _ => Bool.and_comm _ _)
  rw [e1, e2]

/-- Witness for C4 at a concrete three-figure page. -/
theorem model_single_order_groups_w :
    model_single_order [⟨1, false, true⟩, ⟨2, true, false⟩, ⟨3, false, false⟩] =
      [⟨2, true, false⟩, ⟨1, false, true⟩, ⟨3, false, false⟩] :=
  (model_single_order_groups [⟨1, false, true⟩, ⟨2, true, false⟩, ⟨3, false, false⟩]
      (by decide)).trans (by decide)

/-! ## `_plot_strategy` x-axis visibility and range resolution -/

/-- C8: when the scheme's `xaxis_pos` is `"bottom"`, the configuration loop
sets the x-axis of every pane invisible, including the last one, because its
condition `i <= len(strat_figures)` holds for every pane index. -/
theorem xaxis_all_invisible (pos : String) (figs : List StratFigure) (h : pos = "bottom") :
    (configure_xaxis pos figs).length = figs.length ∧
    ∀ f ∈ configure_xaxis pos figs, f.xaxis_visible = false := by
  subst h
  unfold configure_xaxis
  rw [if_pos rfl]
  constructor
  · rw [List.length_map, List.enum_length]
  · intro f hf
    obtain ⟨p, hp, rfl⟩ := List.mem_map.mp hf
    have hlt : p.1 < figs.length := by
      have hg := List.mem_enum_iff_getElem?.mp hp
      exact (List.getElem?_eq_some.mp hg).1
    simp [Nat.le_of_lt hlt]

/-- Witness for C8 at a concrete one-pane page. -/
theorem xaxis_all_invisible_w :
    StratFigure.xaxis_visible ((configure_xaxis "bottom" [⟨true⟩]).getD 0 ⟨true⟩) = false := by
  refine (xaxis_all_invisible "bottom" [⟨true⟩] rfl).2 _ ?_
  decide

/-- C9: for every timestamp array of length `n` and negative integer `end`,
both `_get_start_end` and the duplicated code in `_plot_strategy` resolve the
exclusive end index to `n + 1 + end` (so `-1` keeps the whole array and `-2`
drops the last bar). -/
theorem negative_end_index (dt : List Int) (i : Int) (h : i < 0) (sArg : Option PlotBound) :
    (get_start_end dt sArg (some (.ival i))).2 = (dt.length : Int) + 1 + i
    ∧ (plot_strategy_range dt sArg (some (.ival i))).2 = (dt.length : Int) + 1 + i := by
  refine ⟨?_, ?_⟩ <;> simp [get_start_end, plot_strategy_range, h]

/-- Witness for C9 on a two-element array with `end = -1`. -/
theorem negative_end_index_w :
    (get_start_end [(5 : Int), 6] none (some (.ival (-1)))).2 = 2
    ∧ (plot_strategy_range [(5 : Int), 6] none (some (.ival (-1)))).2 = 2 := by
  have h := negative_end_index [(5 : Int), 6] (-1) (by decide) none
  exact ⟨h.1.trans (by decide), h.2.trans (by decide)⟩

/-! ## `plot` / `plot_result` error conditions -/

theorem optret_loop_ok (n : Nat) : optret_loop true n = .ok () := by
  induction n with
  | zero => rfl
  | succ k ih => simpa [optret_loop] using ih

theorem plot_error_aux (obj : PlotObj) (numfigs : Nat) (use : Option Unit) (fp : PageState) :
    exceptIsError (plot obj numfigs use fp) = true ↔ plotErrorCond obj numfigs use := by
  by_cases h1 : numfigs > 1
  · simp [plot, plotErrorCond, h1, exceptIsError]
  · by_cases h2 : use.isSome = true
    · simp [plot, plotErrorCond, h1, h2, exceptIsError]
    · cases obj with
      | strat => simp [plot, plotErrorCond, h1, h2, exceptIsError]
      | optRet hasCls n =>
        cases hasCls with
        | true => simp [plot, plotErrorCond, optret_loop_ok, h1, h2, exceptIsError]
        | false =>
          cases n with
          | zero => simp [plot, plotErrorCond, optret_loop, h1, h2, exceptIsError]
          | succ k => simp [plot, plotErrorCond, optret_loop, h1, h2, exceptIsError]
      | objList l => simp [plot, plotErrorCond, h1, h2, exceptIsError]
      | other => simp [plot, plotErrorCond, h1, h2, exceptIsError]

theorem plot_each_error_aux (l : List PlotObj) :
    ∀ fp, exceptIsError (plot_each l fp) = true ↔ ∃ s ∈ l, plotErrorCond s 1 none := by
  induction l with
  | nil => intro fp; simp [plot_each, exceptIsError]
  | cons s rest ih =>
    intro fp
    rw [plot_each]
    cases hp : plot s 1 none fp with
    | error e =>
      simp only [exceptIsError, true_iff]
      refine ⟨s, List.mem_cons_self s rest, ?_⟩
      exact (plot_error_aux s 1 none fp).mp (by rw [hp]; rfl)
    | ok fp2 =>
      rw [ih fp2]
      constructor
      · rintro ⟨t, ht, hc⟩
        exact ⟨t, List.mem_cons.mpr (Or.inr ht), hc⟩
      · rintro ⟨t, ht, hc⟩
        rcases List.mem_cons.mp ht with rfl | ht'
        · exfalso
          have := (plot_error_aux t 1 none fp).mpr hc
          rw [hp] at this
          cases this
        · exact ⟨t, ht', hc⟩

theorem plot_result_error_aux (r : ResultArg) (fp : PageState) :
    exceptIsError (plot_result r fp) = true ↔ plotResultErrorCond r := by
  cases r with
  | notList => simp [plot_result, plotResultErrorCond, exceptIsError]
  | list l =>
    cases l with
    | nil => simp [plot_result, plotResultErrorCond, exceptIsError]
    | cons e rest =>
      simp only [plot_result, plotResultErrorCond]
      by_cases hf : firstIsOptResult e = true
      · rw [if_pos hf, if_pos hf]
        cases e with
        | objList il =>
          cases il with
          | nil => simp [firstIsOptResult] at hf
          | cons x xs => simp [run_optresult, exceptIsError]
        | strat => simp [firstIsOptResult] at hf
        | optRet c n => simp [firstIsOptResult] at hf
        | other => simp [firstIsOptResult] at hf
      · rw [if_neg hf, if_neg hf]
        cases e with
        | strat =>
          have hsame : exceptIsError
              (match plot_each (PlotObj.strat :: rest) fp with
               | .error msg => (.error msg : Except String PageState)
               | .ok _ => .ok []) = exceptIsError (plot_each (PlotObj.strat :: rest) fp) := by
            cases plot_each (PlotObj.strat :: rest) fp <;> rfl
          rw [hsame, plot_each_error_aux]
        | optRet c n => simp [exceptIsError]
        | objList il => simp [exceptIsError]
        | other => simp [exceptIsError]

/-- C6 counterexample: an `OptReturn` lacking the `strategycls` field but
carrying no analyzers does not raise — the `hasattr` check sits inside the
analyzer loop, whose body never runs — while the claim says `plot` raises
whenever an `OptReturn` lacks `strategycls`. -/
theorem plot_error_conditions_cex :
    claimed_plot_raises (.optRet false 0) 1 none = true
    ∧ exceptIsError (plot (.optRet false 0) 1 none []) = false := by
  exact ⟨rfl, rfl⟩

/-- C6 (amended): `plot` raises exactly when `numfigs > 1`, `use` is not
`None`, the object is neither a Strategy nor an OptReturn, or it is an
OptReturn lacking `strategycls` that has at least one analyzer; `plot_result`
raises exactly when the result is not a list, when a non-empty list's first
element is of an unsupported type, or when the first element is a Strategy
and some element of the list makes `plot` raise.  There is no retry: the
functions are pure dispatchers whose only failure mode is the returned
error. -/
theorem plot_error_conditions :
    (∀ obj numfigs use fp,
      exceptIsError (plot obj numfigs use fp) = true ↔ plotErrorCond obj numfigs use)
    ∧ (∀ r fp, exceptIsError (plot_result r fp) = true ↔ plotResultErrorCond r) :=
  ⟨plot_error_aux, plot_result_error_aux⟩

/-- C10: `plot_result` called with an empty list returns normally, without
raising, without plotting anything, and with the page state unchanged. -/
theorem plot_result_empty_noop (fp : PageState) :
    plot_result (.list []) fp = .ok fp := rfl

/-! ## Helper lemmas: bisect on a sorted timestamp array -/

theorem sorted_le {a : List Int} (hs : a.Sorted (· ≤ ·)) {i j : Nat}
    (hij : i ≤ j) (hj : j < a.length) : a.getD i 0 ≤ a.getD j 0 := by
  rcases Nat.eq_or_lt_of_le hij with rfl | hlt
  · exact le_refl _
  · rw [List.getD_eq_getElem _ _ (lt_trans hlt hj), List.getD_eq_getElem _ _ hj]
    exact List.pairwise_iff_get.mp hs ⟨i, lt_trans hlt hj⟩ ⟨j, hj⟩ hlt

theorem bisectLeftAux_spec {a : List Int} {x : Int} (hs : a.Sorted (· ≤ ·)) :
    ∀ n lo hi, hi - lo ≤ n → lo ≤ hi → hi ≤ a.length →
      (∀ i, i < lo → a.getD i 0 < x) →
      (∀ i, hi ≤ i → i < a.length → ¬(a.getD i 0 < x)) →
      lo ≤ bisectLeftAux a x lo hi ∧ bisectLeftAux a x lo hi ≤ hi ∧
      (∀ i, i < bisectLeftAux a x lo hi → a.getD i 0 < x) ∧
      (∀ i, bisectLeftAux a x lo hi ≤ i → i < a.length → ¬(a.getD i 0 < x)) := by
  intro n
  induction n with
  | zero =>
    intro lo hi hn hlohi hlen hbelow habove
    have hnlt : ¬lo < hi := by omega
    rw [bisectLeftAux, dif_neg hnlt]
    exact ⟨le_refl _, hlohi, hbelow, fun i h1 h2 => habove i (by omega) h2⟩
  | succ n ih =>
    intro lo hi hn hlohi hlen hbelow habove
    by_cases hlt : lo < hi
    · rw [bisectLeftAux, dif_pos hlt]
      have hmid1 : lo ≤ (lo + hi) / 2 := Nat.le_div_iff_mul_le (by omega) |>.mpr (by omega)
      have hmid2 : (lo + hi) / 2 < hi := Nat.div_lt_iff_lt_mul (by omega) |>.mpr (by omega)
      by_cases hcmp : a.getD ((lo + hi) / 2) 0 < x
      · rw [if_pos hcmp]
        have h := ih ((lo + hi) / 2 + 1) hi (by omega) (by omega) hlen
          (fun i hi' => lt_of_le_of_lt (sorted_le hs (by omega) (by omega)) hcmp) habove
        exact ⟨by omega, h.2.1, h.2.2.1, h.2.2.2⟩
      · rw [if_neg hcmp]
        have h := ih lo ((lo + hi) / 2) (by omega) (by omega) (by omega) hbelow
          (fun i h1 h2 hlt2 => hcmp (lt_of_le_of_lt (sorted_le hs h1 h2) hlt2))
        exact ⟨h.1, by omega, h.2.2.1, h.2.2.2⟩
    · rw [bisectLeftAux, dif_neg hlt]
      exact ⟨le_refl _, hlohi, hbelow, fun i h1 h2 => habove i (by omega) h2⟩

theorem bisect_left_spec (a : List Int) (x : Int) (hs : a.Sorted (· ≤ ·)) :
    bisect_left a x ≤ a.length ∧
    (∀ i, i < bisect_left a x → a.getD i 0 < x) ∧
    (∀ i, bisect_left a x ≤ i → i < a.length → x ≤ a.getD i 0) := by
  have h := @bisectLeftAux_spec a x hs a.length 0 a.length (by omega) (by omega) (le_refl _)
    (fun i h1 => absurd h1 (by omega)) (fun i h1 h2 => absurd h2 (by omega))
  exact ⟨h.2.1, h.2.2.1, fun i h1 h2 => not_lt.mp (h.2.2.2 i h1 h2)⟩

theorem bisectRightAux_spec {a : List Int} {x : Int} (hs : a.Sorted (· ≤ ·)) :
    ∀ n lo hi, hi - lo ≤ n → lo ≤ hi → hi ≤ a.length →
      (∀ i, i < lo → a.getD i 0 ≤ x) →
      (∀ i, hi ≤ i → i < a.length → x < a.getD i 0) →
      lo ≤ bisectRightAux a x lo hi ∧ bisectRightAux a x lo hi ≤ hi ∧
      (∀ i, i < bisectRightAux a x lo hi → a.getD i 0 ≤ x) ∧
      (∀ i, bisectRightAux a x lo hi ≤ i → i < a.length → x < a.getD i 0) := by
  intro n
  induction n with
  | zero =>
    intro lo hi hn hlohi hlen hbelow habove
    have hnlt : ¬lo < hi := by omega
    rw [bisectRightAux, dif_neg hnlt]
    exact ⟨le_refl _, hlohi, hbelow, fun i h1 h2 => habove i (by omega) h2⟩
  | succ n ih =>
    intro lo hi hn hlohi hlen hbelow habove
    by_cases hlt : lo < hi
    · rw [bisectRightAux, dif_pos hlt]
      have hmid1 : lo ≤ (lo + hi) / 2 := Nat.le_div_iff_mul_le (by omega) |>.mpr (by omega)
      have hmid2 : (lo + hi) / 2 < hi := Nat.div_lt_iff_lt_mul (by omega) |>.mpr (by omega)
      by_cases hcmp : x < a.getD ((lo + hi) / 2) 0
      · rw [if_pos hcmp]
        have h := ih lo ((lo + hi) / 2) (by omega) (by omega) (by omega) hbelow
          (fun i h1 h2 => lt_of_lt_of_le hcmp (sorted_le hs h1 h2))
        exact ⟨h.1, by omega, h.2.2.1, h.2.2.2⟩
      · rw [if_neg hcmp]
        have h := ih ((lo + hi) / 2 + 1) hi (by omega) (by omega) hlen
          (fun i hi' => le_trans (sorted_le hs (by omega) (by omega)) (not_lt.mp hcmp)) habove
        exact ⟨by omega, h.2.1, h.2.2.1, h.2.2.2⟩
    · rw [bisectRightAux, dif_neg hlt]
      exact ⟨le_refl _, hlohi, hbelow, fun i h1 h2 => habove i (by omega) h2⟩

theorem bisect_right_spec (a : List Int) (x : Int) (hs : a.Sorted (· ≤ ·)) :
    bisect_right a x ≤ a.length ∧
    (∀ i, i < bisect_right a x → a.getD i 0 ≤ x) ∧
    (∀ i, bisect_right a x ≤ i → i < a.length → x < a.getD i 0) := by
  have h := @bisectRightAux_spec a x hs a.length 0 a.length (by omega) (by omega) (le_refl _)
    (fun i h1 => absurd h1 (by omega)) (fun i h1 h2 => absurd h2 (by omega))
  exact ⟨h.2.1, h.2.2.1, h.2.2.2⟩

/-- C5: `_get_start_end` resolves the plotted range as a half-open index
interval over the (sorted) timestamp array: a `None` start becomes `0` and a
`None` end becomes the array length; a date start becomes the `bisect_left`
index — the leftmost index whose timestamp is not less than the date, so the
start bar is included — and a date end becomes the `bisect_right` index —
just past the last timestamp not greater than the date, so the end index is
exclusive. -/
theorem get_start_end_resolution (dt : List Int) (hs : dt.Sorted (· ≤ ·)) (d e : Int) :
    get_start_end dt none none = (0, (dt.length : Int)) ∧
    ((get_start_end dt (some (.dval d)) none).1 = (bisect_left dt d : Nat) ∧
      bisect_left dt d ≤ dt.length ∧
      (∀ i, i < bisect_left dt d → dt.getD i 0 < d) ∧
      (∀ i, bisect_left dt d ≤ i → i < dt.length → d ≤ dt.getD i 0)) ∧
    ((get_start_end dt none (some (.dval e))).2 = (bisect_right dt e : Nat) ∧
      bisect_right dt e ≤ dt.length ∧
      (∀ i, i < bisect_right dt e → dt.getD i 0 ≤ e) ∧
      (∀ i, bisect_right dt e ≤ i → i < dt.length → e < dt.getD i 0)) := by
  obtain ⟨hl1, hl2, hl3⟩ := bisect_left_spec dt d hs
  obtain ⟨hr1, hr2, hr3⟩ := bisect_right_spec dt e hs
  have hnn : ¬((dt.length : Int) < 0) := by omega
  have hnn2 : ¬((bisect_right dt e : Int) < 0) := by omega
  refine ⟨?_, ⟨?_, hl1, hl2, hl3⟩, ⟨?_, hr1, hr2, hr3⟩⟩
  · simp [get_start_end, hnn]
  · rfl
  · simp [get_start_end, hnn2]

/-- Witness for C5 on a concrete sorted array. -/
theorem get_start_end_resolution_w :
    get_start_end [(1 : Int), 2, 2] none none = (0, 3) :=
  (get_start_end_resolution [(1 : Int), 2, 2] (by decide) 2 2).1

end BtPlot
